import Mathlib

/-!
Verification of the dual-backend social-post search subsystem
(`src/server/services/searchService.ts`, `src/server/routes/searchRoutes.ts`
and the Elasticsearch route file).

The development shallowly embeds the code:

* JavaScript objects passed to `JSON.stringify` are modelled as association
  lists in insertion order (`jObj`); `JSON.stringify`'s escaping of `"` and
  `\` inside strings is modelled by `esc` (escaping of control characters is
  elided, which does not affect any statement below), numbers print in
  decimal (`natChars`), `undefined` fields are omitted (`optField`).
* The PostgreSQL query built by `searchFriendPosts` is modelled by executing
  the same join/filter/sort/window pipeline over an explicit `Store`;
  the external full-text engine (`search_vector @@ plainto_tsquery`) is a
  parameter `fts` of the model, and SQL string comparison on the ISO date
  strings is byte-lexicographic (`charListLe`).
* `node-cache` with `stdTTL: 300` is a list of (key, value, write time)
  entries; `get` treats an entry as present while `now ≤ written + 300`.
* The Elasticsearch engine is modelled by evaluating the compiled bool
  query (term / terms / range filters, abstract multi-match predicate) over
  the documents of the index, returning the page window and the total hit
  count; relevance ordering is abstracted away (no statement below depends
  on hit order of the index engine).
* Timestamps (`Date.now`) are naturals counting seconds.
-/

namespace SearchSvc

/-! ### JSON.stringify model -/

/-- JSON string escaping of `"` and `\` (as performed by `JSON.stringify`). -/
def esc : List Char → List Char
  | [] => []
  | c :: cs => if c = '"' ∨ c = '\\' then '\\' :: c :: esc cs else c :: esc cs

/-- A JSON string literal: quote, escaped body, quote. -/
def quoteChars (s : List Char) : List Char := '"' :: esc s ++ ['"']

/-- Decimal digits with a structural fuel argument (`fuel > n` suffices,
since the number shrinks by a factor of ten at every step). -/
def natCharsFuel : Nat → Nat → List Char
  | 0, _ => []
  | fuel + 1, n =>
    if n < 10 then [Nat.digitChar n]
    else natCharsFuel fuel (n / 10) ++ [Nat.digitChar (n % 10)]

/-- Decimal digits of a natural number, most significant first
(how `JSON.stringify` prints the numbers appearing in a filter object). -/
def natChars (n : Nat) : List Char := natCharsFuel (n + 1) n

/-- Value of a digit character. -/
def digVal (c : Char) : Nat := c.toNat - 48

/-- Decimal value of a digit string (used only to prove `natChars` injective). -/
def natVal (l : List Char) : Nat := l.foldl (fun a c => 10 * a + digVal c) 0

/-- Is `c` one of the ten decimal digit characters? -/
def isDig (c : Char) : Prop := 48 ≤ c.toNat ∧ c.toNat ≤ 57

instance (c : Char) : Decidable (isDig c) := by unfold isDig; infer_instance

/-- Comma-separated concatenation, as produced by `JSON.stringify` between
array elements and between object fields. -/
def sepComma : List (List Char) → List Char
  | [] => []
  | [x] => x
  | x :: y :: xs => x ++ ',' :: sepComma (y :: xs)

/-- The JSON values that occur in a search-filter object. -/
inductive JVal where
  | jnum : Nat → JVal
  | jstr : String → JVal
  | jarr : List String → JVal
  | jbool : Bool → JVal
deriving DecidableEq

/-- Serialization of a single JSON value. -/
def jvalChars : JVal → List Char
  | .jnum n => natChars n
  | .jstr s => quoteChars s.data
  | .jarr l => '[' :: sepComma (l.map (fun s => quoteChars s.data)) ++ [']']
  | .jbool b => if b then "true".data else "false".data

/-- Serialization of one object field: quoted key, colon, value. -/
def fieldChars (kv : String × JVal) : List Char :=
  quoteChars kv.1.data ++ ':' :: jvalChars kv.2

/-- `JSON.stringify` of a JavaScript object, whose fields are an association
list in insertion order.  Braces are the characters x7b and x7d. -/
def jObj (fields : List (String × JVal)) : List Char :=
  '\x7b' :: sepComma (fields.map fieldChars) ++ ['\x7d']

/-! ### Filter models (`SearchFilters`, `ESSearchFilters`) -/

/-- Sort modes of the Elasticsearch path (`sortBy` of `ESSearchFilters`). -/
inductive SortBy where
  | relevance | date | popularity
deriving DecidableEq

/-- The string a `sortBy` value prints as in JSON. -/
def sortByStr : SortBy → String
  | .relevance => "relevance"
  | .date => "date"
  | .popularity => "popularity"

/-- `SearchFilters` of the relational path (searchService.ts lines 8-17).
Optional fields are `undefined` when absent; date bounds stay the ISO strings
the route passes through; `page`/`limit` are modelled as naturals. -/
structure SearchFilters where
  userId : Nat
  query : Option String := none
  tags : Option (List String) := none
  dateFrom : Option String := none
  dateTo : Option String := none
  friendId : Option Nat := none
  page : Option Nat := none
  limit : Option Nat := none
deriving DecidableEq

/-- `ESSearchFilters` of the Elasticsearch path (lines 233-244). -/
structure ESSearchFilters where
  userId : Nat
  query : Option String := none
  tags : Option (List String) := none
  dateFrom : Option String := none
  dateTo : Option String := none
  friendId : Option Nat := none
  page : Option Nat := none
  limit : Option Nat := none
  sortBy : Option SortBy := none
  fuzzy : Option Bool := none
deriving DecidableEq

/-- A present optional field contributes one key/value pair to the object;
an `undefined` one is omitted by `JSON.stringify`. -/
def optField (k : String) (g : α → JVal) : Option α → List (String × JVal)
  | none => []
  | some v => [(k, g v)]

/-- Field list of an `ESSearchFilters` object in the insertion order used at
its construction site (the `/api/es/search/posts` route). -/
def esFields (f : ESSearchFilters) : List (String × JVal) :=
  ("userId", .jnum f.userId) ::
    (optField "query" .jstr f.query ++
     optField "tags" .jarr f.tags ++
     optField "dateFrom" .jstr f.dateFrom ++
     optField "dateTo" .jstr f.dateTo ++
     optField "friendId" .jnum f.friendId ++
     optField "page" .jnum f.page ++
     optField "limit" .jnum f.limit ++
     optField "sortBy" (fun s => .jstr (sortByStr s)) f.sortBy ++
     optField "fuzzy" .jbool f.fuzzy)

/-- Field list of a relational `SearchFilters` object in the insertion order
used at its construction sites (`/api/search/posts` and `/suggestions`). -/
def relFields (f : SearchFilters) : List (String × JVal) :=
  ("userId", .jnum f.userId) ::
    (optField "query" .jstr f.query ++
     optField "tags" .jarr f.tags ++
     optField "dateFrom" .jstr f.dateFrom ++
     optField "dateTo" .jstr f.dateTo ++
     optField "friendId" .jnum f.friendId ++
     optField "page" .jnum f.page ++
     optField "limit" .jnum f.limit)

/-- Cache key of the Elasticsearch path: `JSON.stringify(filters)` (line 284). -/
def esFingerprint (f : ESSearchFilters) : List Char := jObj (esFields f)

/-- Cache key of the relational path: `JSON.stringify(filters)` (line 62). -/
def relFingerprint (f : SearchFilters) : List Char := jObj (relFields f)

/-! ### String helpers (byte-lexicographic order, substring test, lower case) -/

/-- Byte-lexicographic `≤` on character lists: how PostgreSQL compares the
ISO-8601 date strings of `created_at >= $from` / `created_at <= $to`. -/
def charListLe : List Char → List Char → Bool
  | [], _ => true
  | _ :: _, [] => false
  | c :: cs, d :: ds =>
    if c.toNat < d.toNat then true
    else if d.toNat < c.toNat then false
    else charListLe cs ds

/-- Does `hay` start with `needle`? -/
def listStarts : List Char → List Char → Bool
  | _, [] => true
  | [], _ :: _ => false
  | c :: cs, d :: ds => c == d && listStarts cs ds

/-- JavaScript `hay.includes(needle)`: `needle` occurs contiguously in `hay`. -/
def hasSub : List Char → List Char → Bool
  | [], needle => listStarts [] needle
  | c :: t, needle => listStarts (c :: t) needle || hasSub t needle

/-- ASCII lower-casing of one character (JavaScript `toLowerCase` restricted
to the ASCII range used by the fixtures). -/
def lowChar (c : Char) : Char :=
  if 65 ≤ c.toNat ∧ c.toNat ≤ 90 then Char.ofNat (c.toNat + 32) else c

/-- Character data of `s.toLowerCase()`. -/
def lowerData (s : String) : List Char := s.data.map lowChar

/-- JavaScript truthiness of `s && s.trim()`: `s` contains a character that
is not whitespace (the empty string has none, so this also covers `!s`). -/
def hasNonWs (s : String) : Bool :=
  s.data.any (fun c => !(c == ' ' || c == '\t' || c == '\n' || c == '\r'))

/-! ### Relational store and `searchFriendPosts` -/

/-- A row of the `users` table. -/
structure DbUser where
  id : Nat
  name : String
  avatar_url : String
deriving DecidableEq

/-- A row of the `posts` table (`created_at` stays the ISO date string). -/
structure DbPost where
  id : Nat
  user_id : Nat
  title : String
  content : String
  tags : List String
  likes_count : Nat
  comments_count : Nat
  created_at : String
deriving DecidableEq

/-- A row of the `friendships` table. -/
structure Friendship where
  user_id : Nat
  friend_id : Nat
  status : String
deriving DecidableEq

/-- The relational database the query of lines 74-138 runs against. -/
structure Store where
  users : List DbUser
  posts : List DbPost
  friendships : List Friendship
deriving DecidableEq

/-- The `Post` interface of searchService.ts lines 19-30 (one result row). -/
structure Post where
  id : Nat
  user_id : Nat
  user_name : String
  user_avatar : String
  title : String
  content : String
  tags : List String
  likes_count : Nat
  comments_count : Nat
  created_at : String
deriving DecidableEq

/-- The `SearchResult` interface of lines 32-38. -/
structure SearchResult where
  posts : List Post
  total : Nat
  page : Nat
  totalPages : Nat
  hasMore : Bool
deriving DecidableEq

/-- The `INNER JOIN friendships` condition of lines 89-93 together with the
`WHERE f.status = 'accepted'` clause. -/
def friendJoin (uid : Nat) (f : Friendship) (p : DbPost) : Bool :=
  ((f.user_id == uid && f.friend_id == p.user_id) ||
   (f.friend_id == uid && f.user_id == p.user_id)) && f.status == "accepted"

/-- The spec's accepted-friend set `acceptedFriendsOf(requesterId)`:
is `other` an accepted friend of `uid` in the social graph? -/
def isAcceptedFriend (st : Store) (uid other : Nat) : Bool :=
  st.friendships.any (fun f =>
    f.status == "accepted" &&
      ((f.user_id == uid && f.friend_id == other) ||
       (f.friend_id == uid && f.user_id == other)))

/-- The dynamically appended `WHERE` conditions of lines 99-131.  A condition
is appended only when its filter value is truthy (`undefined`, the empty
string, the empty array and `0` are falsy in JavaScript); the external
full-text engine of `search_vector @@ plainto_tsquery($q)` is the
parameter `fts`. -/
def rowCond (F : SearchFilters) (fts : String → DbPost → Bool) (p : DbPost) : Bool :=
  (match F.query with
   | some q => if hasNonWs q then fts q p else true
   | none => true) &&
  (match F.tags with
   | some ts => if ts.isEmpty then true else ts.any (fun t => p.tags.contains t)
   | none => true) &&
  (match F.dateFrom with
   | some d => if d == "" then true else charListLe d.data p.created_at.data
   | none => true) &&
  (match F.dateTo with
   | some d => if d == "" then true else charListLe p.created_at.data d.data
   | none => true) &&
  (match F.friendId with
   | some fid => if fid == 0 then true else p.user_id == fid
   | none => true)

/-- All rows produced by the join and `WHERE` clauses, one row per matching
(post, user, friendship) triple exactly as an SQL inner join yields them
(the window function `COUNT(*) OVER()` counts these rows). -/
def matchingRows (st : Store) (F : SearchFilters) (fts : String → DbPost → Bool) :
    List Post :=
  st.posts.flatMap fun p =>
    st.users.flatMap fun u =>
      st.friendships.flatMap fun f =>
        if u.id == p.user_id && friendJoin F.userId f p && rowCond F fts p then
          [{ id := p.id, user_id := p.user_id, user_name := u.name,
             user_avatar := u.avatar_url, title := p.title, content := p.content,
             tags := p.tags, likes_count := p.likes_count,
             comments_count := p.comments_count, created_at := p.created_at }]
        else []

/-- Insert one row into a list sorted by `created_at` descending. -/
def insertDesc (p : Post) : List Post → List Post
  | [] => [p]
  | q :: qs =>
    if charListLe q.created_at.data p.created_at.data then p :: q :: qs
    else q :: insertDesc p qs

/-- `ORDER BY p.created_at DESC` (line 135). -/
def sortByCreatedDesc : List Post → List Post
  | [] => []
  | p :: ps => insertDesc p (sortByCreatedDesc ps)

/-- `Math.ceil(total / limit)` on the naturals that occur here. -/
def mathCeil (a b : Nat) : Nat := if a % b == 0 then a / b else a / b + 1

/-- Result shaping of lines 156-165: the reported total is the window count
carried by the first returned row and defaults to `0` when the page window
is empty; `totalPages = Math.ceil(total / limit)`; `hasMore = page < totalPages`. -/
def paginate (rows : List Post) (matchCount page limit : Nat) : SearchResult :=
  let total := if rows.isEmpty then 0 else matchCount
  let totalPages := mathCeil total limit
  { posts := rows, total := total, page := page, totalPages := totalPages,
    hasMore := decide (page < totalPages) }

/-- The fresh (cache-miss) computation of `searchFriendPosts`:
join, filter, sort, page window `LIMIT limit OFFSET (page-1)*limit`,
then result shaping. -/
def searchFriendPostsCompute (st : Store) (F : SearchFilters)
    (fts : String → DbPost → Bool) : SearchResult :=
  let page := F.page.getD 1
  let limit := F.limit.getD 20
  let offset := (page - 1) * limit
  let matched := matchingRows st F fts
  let rows := ((sortByCreatedDesc matched).drop offset).take limit
  paginate rows matched.length page limit

/-! ### The node-cache instance (`stdTTL: 300`) -/

/-- The cache store: key, cached result, write time (seconds). -/
abbrev Cache := List (List Char × SearchResult × Nat)

/-- `searchCache.get(key)`: an entry written at time `t` is returned while
`now ≤ t + 300` and treated as expired (a miss) afterwards. -/
def cacheGet (c : Cache) (key : List Char) (now : Nat) : Option SearchResult :=
  match c.find? (fun e => e.1 == key && Nat.ble now (e.2.2 + 300)) with
  | some e => some e.2.1
  | none => none

/-- `searchCache.set(key, value)` at time `now` (replaces an older entry
under the same key). -/
def cacheSet (c : Cache) (key : List Char) (v : SearchResult) (now : Nat) : Cache :=
  (key, v, now) :: c.filter (fun e => !(e.1 == key))

/-- `searchFriendPosts` (lines 47-175): cache lookup under the
`JSON.stringify` key, on a miss the fresh computation followed by a cache
write.  Returns the result and the updated cache. -/
def searchFriendPosts (st : Store) (F : SearchFilters)
    (fts : String → DbPost → Bool) (c : Cache) (now : Nat) :
    SearchResult × Cache :=
  let key := relFingerprint F
  match cacheGet c key now with
  | some r => (r, c)
  | none =>
    let r := searchFriendPostsCompute st F fts
    (r, cacheSet c key r now)

/-- The substring `"userId":<id>` that `invalidateCache` greps cache keys
for (line 217). -/
def userIdMarker (uid : Nat) : List Char := "\"userId\":".data ++ natChars uid

/-- `invalidateCache(userId?)` (lines 215-222): with a truthy `userId` it
deletes every entry whose key contains the substring `"userId":<id>`;
with no (or a falsy, i.e. `0`) `userId` it flushes everything. -/
def invalidateCache (uid : Option Nat) (c : Cache) : Cache :=
  match uid with
  | some u =>
    if u == 0 then []
    else c.filter (fun e => !(hasSub e.1 (userIdMarker u)))
  | none => []

/-! ### The `/api/search/suggestions` route (relational suggestion path) -/

/-- JavaScript `Set` insertion-order deduplication with an accumulator of
already seen values. -/
def dedupSeen (seen : List String) : List String → List String
  | [] => []
  | x :: xs => if x ∈ seen then dedupSeen seen xs else x :: dedupSeen (x :: seen) xs

/-- `[...new Set(l)]`: duplicates removed, first occurrence order kept. -/
def dedupFirst (l : List String) : List String := dedupSeen [] l

/-- The `/api/search/suggestions` handler (searchRoutes.ts lines 109-150):
below two characters it answers an empty list; otherwise it searches with
`limit: 5`, keeps the titles whose lower case contains the lower-cased
query, and slices to five entries.  No deduplication happens here. -/
def suggestionsRoute (st : Store) (fts : String → DbPost → Bool)
    (uid : Nat) (q : String) (c : Cache) (now : Nat) : List String × Cache :=
  if q.length < 2 then ([], c)
  else
    let rc := searchFriendPosts st { userId := uid, query := some q, limit := some 5 } fts c now
    (((rc.1.posts.map (fun p => p.title)).filter
        (fun t => !(t == "") && hasSub (lowerData t) (lowerData q))).take 5, rc.2)

/-! ### Elasticsearch path -/

/-- A document of `POSTS_INDEX` (its `_source`). -/
structure ESPost where
  id : Nat
  user_id : Nat
  user_name : String
  title : String
  content : String
  tags : List String
  likes_count : Nat
  comments_count : Nat
  created_at : String
deriving DecidableEq

/-- The `ESSearchResult` interface (lines 246-254); `searchTime` is wall
clock time and is modelled as the constant `0`. -/
structure ESSearchResult where
  posts : List ESPost
  total : Nat
  page : Nat
  totalPages : Nat
  hasMore : Bool
  searchTime : Nat
deriving DecidableEq

/-- Evaluation of the bool query compiled in lines 296-400 on one document:
`must` holds the multi-match (the external scorer, parameter `esMatch`,
receiving the query text and the `fuzzy` flag) or `match_all`; `filter`
holds the optional `term user_id` (only when `friendId` is truthy — there
is no friendship clause on this path), `terms tags` and `range created_at`
clauses.  No clause mentions the requester's social graph. -/
def esCond (F : ESSearchFilters) (esMatch : String → Bool → ESPost → Bool)
    (d : ESPost) : Bool :=
  (match F.query with
   | some q => if hasNonWs q then esMatch q (F.fuzzy.getD true) d else true
   | none => true) &&
  (match F.friendId with
   | some fid => if fid == 0 then true else d.user_id == fid
   | none => true) &&
  (match F.tags with
   | some ts => if ts.isEmpty then true else ts.any (fun t => d.tags.contains t)
   | none => true) &&
  (match F.dateFrom with
   | some a => if a == "" then true else charListLe a.data d.created_at.data
   | none => true) &&
  (match F.dateTo with
   | some b => if b == "" then true else charListLe d.created_at.data b.data
   | none => true)

/-- The fresh computation of `searchPostsWithElasticsearch` (lines 266-451):
the engine returns the page window `from = (page-1)*limit, size = limit` of
the matching documents together with the total hit count `hits.total.value`;
the relevance ordering of the hits is abstracted away (no claim below
depends on it). -/
def searchPostsWithElasticsearchCompute (index : List ESPost)
    (F : ESSearchFilters) (esMatch : String → Bool → ESPost → Bool) :
    ESSearchResult :=
  let page := F.page.getD 1
  let limit := F.limit.getD 20
  let fromRow := (page - 1) * limit
  let matching := index.filter (esCond F esMatch)
  let hits := ((matching.drop fromRow).take limit)
  { posts := hits, total := matching.length, page := page,
    totalPages := mathCeil matching.length limit,
    hasMore := decide (page < mathCeil matching.length limit),
    searchTime := 0 }

/-- `logSearch` (lines 601-631): the `indexDocument` call sits in a
`try`/`catch` whose handler only logs to the console, so the function
returns normally for every outcome of the log write. -/
def logSearch (o : Except String Unit) : Except String Unit :=
  match o with
  | .ok _ => .ok ()
  | .error _ => .ok ()

/-- The tail of `searchPostsWithElasticsearch` (lines 424-446): the result
is built, then the log write is dispatched with its outcome routed through
`logSearch` and a `.catch` that only logs; the returned result is whatever
the search computed, for every log outcome. -/
def esSearchAndLog (index : List ESPost) (F : ESSearchFilters)
    (esMatch : String → Bool → ESPost → Bool) (logOutcome : Except String Unit) :
    ESSearchResult × Except String Unit :=
  (searchPostsWithElasticsearchCompute index F esMatch, logSearch logOutcome)

/-- `getAutocompleteSuggestions` (lines 456-488) applied to the titles the
index engine returned for the `bool_prefix` query with `size: limit`:
prefixes shorter than two characters short-circuit to an empty list, then
falsy/blank titles are dropped and `[...new Set(...)]` deduplicates. -/
def getAutocompleteSuggestions (q : String) (hitTitles : List String) : List String :=
  if q == "" || q.length < 2 then []
  else dedupFirst (hitTitles.filter (fun t => !(t == "") && hasNonWs t))

/-! ### Route-level limit clamp and error wrappers -/

/-- `req.query.limit ? parseInt(req.query.limit) : 20`. -/
def routeLimit (raw : Option Nat) : Nat :=
  match raw with
  | some n => n
  | none => 20

/-- `if (filters.limit && filters.limit > 100) filters.limit = 100`
(searchRoutes.ts lines 52-54 and the identical Elasticsearch route). -/
def clampLimit (l : Nat) : Nat := if l ≠ 0 ∧ 100 < l then 100 else l

/-- The `limit` the route hands to the service for a raw request value. -/
def routeEffectiveLimit (raw : Option Nat) : Nat := clampLimit (routeLimit raw)

/-- The `LIMIT` parameter the service binds into the compiled query
(line 136-138): the filter's `limit`, defaulting to 20. -/
def planLimit (F : SearchFilters) : Nat := F.limit.getD 20

/-- The filter object the `/api/search/posts` route builds (lines 34-54):
`page` defaults to 1, `limit` defaults to 20 and is then clamped. -/
def routeFilters (userId : Nat) (q : Option String) (tags : Option (List String))
    (dateFrom dateTo : Option String) (friendId : Option Nat)
    (page rawLimit : Option Nat) : SearchFilters :=
  { userId := userId, query := q, tags := tags, dateFrom := dateFrom,
    dateTo := dateTo, friendId := friendId, page := some (page.getD 1),
    limit := some (clampLimit (rawLimit.getD 20)) }

/-- `getPopularTags` (lines 180-210): on a database error the `catch`
returns an empty list; on success the tag column of the grouped rows. -/
def getPopularTags (outcome : Except String (List (String × Nat))) :
    Except String (List String) :=
  match outcome with
  | .ok rows => .ok (rows.map (fun r => r.1))
  | .error _ => .ok []

/-- `getRelatedQueries` (lines 493-519): aggregation bucket keys on
success, an empty list on any engine error. -/
def getRelatedQueries (outcome : Except String (List (String × Nat))) :
    Except String (List String) :=
  match outcome with
  | .ok buckets => .ok (buckets.map (fun b => b.1))
  | .error _ => .ok []

/-- `getTrendingSearches` (lines 524-559): (query, count) pairs from the
trending buckets on success, an empty list on any engine error. -/
def getTrendingSearches (outcome : Except String (List (String × Nat))) :
    Except String (List (String × Nat)) :=
  match outcome with
  | .ok buckets => .ok (buckets.map (fun b => (b.1, b.2)))
  | .error _ => .ok []

/-- `getAutocompleteSuggestions`'s `try`/`catch` (lines 463-487): an engine
error yields an empty list instead of propagating. -/
def getAutocompleteSuggestionsRun (q : String)
    (outcome : Except String (List String)) : Except String (List String) :=
  match outcome with
  | .ok hitTitles => .ok (getAutocompleteSuggestions q hitTitles)
  | .error _ => .ok []

/-- The `catch` of `searchFriendPosts` (lines 171-174): a backend error is
re-raised as `Failed to search posts`. -/
def searchFriendPostsOutcome (outcome : Except String SearchResult) :
    Except String SearchResult :=
  match outcome with
  | .ok r => .ok r
  | .error _ => .error "Failed to search posts"

/-- The `catch` of `searchPostsWithElasticsearch` (lines 447-450): a backend
error is re-raised as `Search failed`. -/
def searchPostsWithElasticsearchOutcome (outcome : Except String ESSearchResult) :
    Except String ESSearchResult :=
  match outcome with
  | .ok r => .ok r
  | .error _ => .error "Search failed"

/-! ### Concrete fixtures for witnesses and counterexamples -/

/-- Requesting user of the fixtures. -/
def aliceRow : DbUser := { id := 1, name := "alice", avatar_url := "a.png" }

/-- Accepted friend of user 1. -/
def bobRow : DbUser := { id := 2, name := "bob", avatar_url := "b.png" }

/-- A post by the friend, titled `typing`. -/
def postTyping1 : DbPost :=
  { id := 10, user_id := 2, title := "typing", content := "notes", tags := ["dev"],
    likes_count := 0, comments_count := 0, created_at := "2024-01-02" }

/-- A second post by the friend with the same title. -/
def postTyping2 : DbPost :=
  { id := 11, user_id := 2, title := "typing", content := "more notes",
    tags := ["dev"], likes_count := 1, comments_count := 0,
    created_at := "2024-01-01" }

/-- Store in which user 2 is an accepted friend of user 1 and owns two
posts with identical titles. -/
def storeAB : Store :=
  { users := [aliceRow, bobRow], posts := [postTyping1, postTyping2],
    friendships := [{ user_id := 1, friend_id := 2, status := "accepted" }] }

/-- A store with no friendships at all. -/
def emptyGraphStore : Store := { users := [], posts := [], friendships := [] }

/-- A concrete instantiation of the external full-text engine: the query
occurs in the lower-cased title. -/
def ftsTitle : String → DbPost → Bool := fun q p => hasSub (lowerData p.title) (lowerData q)

/-- An index document authored by user 2. -/
def esDocByBob : ESPost :=
  { id := 20, user_id := 2, user_name := "bob", title := "hello", content := "c",
    tags := [], likes_count := 0, comments_count := 0, created_at := "2024-01-01" }

/-- A concrete instantiation of the index engine's multi-match scorer. -/
def esMatchTitle : String → Bool → ESPost → Bool :=
  fun q _ d => hasSub (lowerData d.title) (lowerData q)

/-- A result row fixture (the shape of `postTyping1` after the join). -/
def rowFix : Post :=
  { id := 10, user_id := 2, user_name := "bob", user_avatar := "b.png",
    title := "typing", content := "notes", tags := ["dev"], likes_count := 0,
    comments_count := 0, created_at := "2024-01-02" }

/-- A cached result fixture. -/
def resFix : SearchResult :=
  { posts := [], total := 0, page := 1, totalPages := 0, hasMore := false }

/-! ## Theorems -/

/-! ### Arithmetic of `Math.ceil` -/

/-- The code's `Math.ceil(total / limit)` is the ceiling division of the
naturals involved. -/
theorem mathCeil_eq_ceilDiv (a b : Nat) (hb : 0 < b) : mathCeil a b = a ⌈/⌉ b := by
  have hdm := Nat.div_add_mod a b
  have hmlt : a % b < b := Nat.mod_lt a hb
  rw [Nat.ceilDiv_eq_add_pred_div, mathCeil]
  rcases Nat.eq_zero_or_pos (a % b) with h0 | hpos
  · have ha : a + b - 1 = b * (a / b) + (b - 1) := by omega
    have h1 : (a + b - 1) / b = a / b := by
      rw [ha, Nat.mul_add_div hb, Nat.div_eq_of_lt (show b - 1 < b by omega),
        Nat.add_zero]
    rw [if_pos (by simp [h0]), h1]
  · have hd : b * (a / b + 1) = b * (a / b) + b := by rw [Nat.mul_add, Nat.mul_one]
    have ha : a + b - 1 = b * (a / b + 1) + (a % b - 1) := by omega
    have h1 : (a + b - 1) / b = a / b + 1 := by
      rw [ha, Nat.mul_add_div hb, Nat.div_eq_of_lt (show a % b - 1 < b by omega),
        Nat.add_zero]
    rw [if_neg (by simp only [beq_iff_eq]; omega), h1]

/-! ### Sorting preserves membership and length -/

theorem mem_insertDesc {x p : Post} {l : List Post} :
    x ∈ insertDesc p l ↔ x = p ∨ x ∈ l := by
  induction l with
  | nil => simp [insertDesc]
  | cons q qs ih =>
    rw [insertDesc]
    split
    · simp [or_comm, or_assoc, or_left_comm]
    · simp [ih, or_comm, or_assoc, or_left_comm]

theorem length_insertDesc (p : Post) (l : List Post) :
    (insertDesc p l).length = l.length + 1 := by
  induction l with
  | nil => rfl
  | cons q qs ih =>
    rw [insertDesc]
    split
    · simp
    · simp [ih]

theorem mem_sortByCreatedDesc {x : Post} {l : List Post} :
    x ∈ sortByCreatedDesc l ↔ x ∈ l := by
  induction l with
  | nil => simp [sortByCreatedDesc]
  | cons p ps ih => rw [sortByCreatedDesc]; simp [mem_insertDesc, ih]

theorem length_sortByCreatedDesc (l : List Post) :
    (sortByCreatedDesc l).length = l.length := by
  induction l with
  | nil => rfl
  | cons p ps ih => rw [sortByCreatedDesc, length_insertDesc, ih]; rfl

/-! ### Deduplication via a JavaScript `Set` -/

theorem dedupSeen_sublist (seen l : List String) :
    List.Sublist (dedupSeen seen l) l := by
  induction l generalizing seen with
  | nil => simp [dedupSeen]
  | cons x xs ih =>
    rw [dedupSeen]
    split
    · exact (ih seen).cons x
    · exact (ih (x :: seen)).cons₂ x

theorem dedupSeen_nodup_strong (l : List String) :
    ∀ seen, (dedupSeen seen l).Nodup ∧ ∀ x ∈ dedupSeen seen l, x ∉ seen := by
  induction l with
  | nil => intro seen; simp [dedupSeen]
  | cons x xs ih =>
    intro seen
    rw [dedupSeen]
    split
    · exact ih seen
    · rename_i hx
      obtain ⟨hnd, hmem⟩ := ih (x :: seen)
      refine ⟨List.nodup_cons.mpr
        ⟨fun hc => (hmem x hc) (List.mem_cons_self x seen), hnd⟩, ?_⟩
      intro y hy
      rcases List.mem_cons.mp hy with rfl | hy'
      · exact hx
      · exact fun hys => (hmem y hy') (List.mem_cons_of_mem _ hys)

theorem dedupFirst_nodup (l : List String) : (dedupFirst l).Nodup :=
  (dedupSeen_nodup_strong l []).1

theorem dedupFirst_sublist (l : List String) : List.Sublist (dedupFirst l) l :=
  dedupSeen_sublist [] l

/-! ### Substring facts for the cache-key marker -/

theorem listStarts_nil (h : List Char) : listStarts h [] = true := by
  cases h <;> rfl

theorem listStarts_append_self (a b : List Char) : listStarts (a ++ b) a = true := by
  induction a with
  | nil => exact listStarts_nil b
  | cons c cs ih => simp [listStarts, ih]

theorem hasSub_append_of_starts (h₁ : List Char) :
    ∀ h₂ n : List Char, listStarts h₂ n = true → hasSub (h₁ ++ h₂) n = true := by
  induction h₁ with
  | nil =>
    intro h₂ n hs
    cases h₂ with
    | nil => simpa [hasSub] using hs
    | cons c t => rw [List.nil_append, hasSub]; simp [hs]
  | cons c cs ih =>
    intro h₂ n hs
    rw [List.cons_append, hasSub]
    simp [ih h₂ n hs]

theorem sepComma_cons (a : List Char) (l : List (List Char)) :
    ∃ r, sepComma (a :: l) = a ++ r := by
  cases l with
  | nil => exact ⟨[], by simp [sepComma]⟩
  | cons b bs => exact ⟨',' :: sepComma (b :: bs), rfl⟩

/-- Every cache key written by `searchFriendPosts` for requester `uid`
contains the substring `"userId":<uid>` that `invalidateCache(uid)` greps
for: the key opens with exactly that marker after the brace. -/
theorem relFingerprint_marker (F : SearchFilters) :
    hasSub (relFingerprint F) (userIdMarker F.userId) = true := by
  have h1 : fieldChars ("userId", JVal.jnum F.userId) = userIdMarker F.userId := rfl
  rw [relFingerprint, relFields, jObj, List.map_cons]
  obtain ⟨r, hr⟩ := sepComma_cons (fieldChars ("userId", JVal.jnum F.userId))
    (List.map fieldChars
      (optField "query" .jstr F.query ++ optField "tags" .jarr F.tags ++
       optField "dateFrom" .jstr F.dateFrom ++ optField "dateTo" .jstr F.dateTo ++
       optField "friendId" .jnum F.friendId ++ optField "page" .jnum F.page ++
       optField "limit" .jnum F.limit))
  rw [hr, h1]
  have key := hasSub_append_of_starts ['\x7b']
    (userIdMarker F.userId ++ (r ++ ['\x7d'])) (userIdMarker F.userId)
    (listStarts_append_self _ _)
  simpa using key

/-- `invalidateCache(u)` for a truthy `u` keeps exactly the entries whose key
does not contain the marker substring. -/
theorem invalidateCache_mem_iff (u : Nat) (hu : u ≠ 0) (c : Cache)
    (e : List Char × SearchResult × Nat) :
    e ∈ invalidateCache (some u) c ↔
      e ∈ c ∧ hasSub e.1 (userIdMarker u) = false := by
  rw [invalidateCache, if_neg (by simpa using hu)]
  simp [List.mem_filter]

/-! ### Rows produced by the relational join are friend-authored -/

theorem mem_matchingRows_isAcceptedFriend {st : Store} {F : SearchFilters}
    {fts : String → DbPost → Bool} {r : Post} (h : r ∈ matchingRows st F fts) :
    isAcceptedFriend st F.userId r.user_id = true := by
  simp only [matchingRows, List.mem_flatMap] at h
  obtain ⟨p, -, u, -, f, hf, hr⟩ := h
  by_cases hc : (u.id == p.user_id && friendJoin F.userId f p && rowCond F fts p) = true
  · rw [if_pos hc] at hr
    simp only [List.mem_singleton] at hr
    subst hr
    simp only [friendJoin, Bool.and_eq_true, Bool.or_eq_true, beq_iff_eq] at hc
    obtain ⟨⟨-, hj, hs⟩, -⟩ := hc
    simp only [isAcceptedFriend, List.any_eq_true]
    exact ⟨f, hf, by simp only [Bool.and_eq_true, Bool.or_eq_true, beq_iff_eq]
                     exact ⟨hs, hj⟩⟩
  · rw [if_neg hc] at hr
    simp at hr

/-! ### Claim theorems -/

/-- C1 (counterexample).  The claim says every search invocation is
restricted to posts authored by accepted friends of the requester.  On the
index path this fails: with an empty social graph (nobody is anybody's
friend), requester 1's Elasticsearch search returns a post authored by
user 2 — the compiled query carries no friendship clause at all. -/
theorem esSearch_returns_post_of_non_friend :
    (searchPostsWithElasticsearchCompute [esDocByBob] { userId := 1 }
        esMatchTitle).posts = [esDocByBob] ∧
    esDocByBob.user_id = 2 ∧
    isAcceptedFriend emptyGraphStore 1 2 = false ∧
    (1 : Nat) ≠ 2 := by
  refine ⟨by decide, by decide, by decide, by decide⟩

/-- C1 (amended).  On the relational path the guarantee does hold: every
post row a fresh `searchFriendPosts` computation returns is authored by an
accepted friend of the requester, because the query joins against the
`friendships` table with `status = 'accepted'`. -/
theorem relationalSearch_scoped_to_accepted_friends (st : Store)
    (F : SearchFilters) (fts : String → DbPost → Bool) (r : Post)
    (h : r ∈ (searchFriendPostsCompute st F fts).posts) :
    isAcceptedFriend st F.userId r.user_id = true := by
  have h' : r ∈ ((sortByCreatedDesc (matchingRows st F fts)).drop
      ((F.page.getD 1 - 1) * (F.limit.getD 20))).take (F.limit.getD 20) := h
  exact mem_matchingRows_isAcceptedFriend
    (mem_sortByCreatedDesc.mp (List.drop_subset _ _ (List.take_subset _ _ h')))

/-- C1 witness: the fixture search returns `rowFix`, and the theorem applies
to it. -/
theorem relationalSearch_scoped_witness :
    (rowFix ∈ (searchFriendPostsCompute storeAB
        { userId := 1, query := some "typing" } ftsTitle).posts) ∧
    isAcceptedFriend storeAB 1 rowFix.user_id = true :=
  ⟨by decide, relationalSearch_scoped_to_accepted_friends storeAB
      { userId := 1, query := some "typing" } ftsTitle rowFix (by decide)⟩

/-- C5.  The route-level clamp caps every incoming `limit` at 100 before the
service ever sees it: the effective limit is at most 100 for every raw
request value, the `LIMIT` parameter the compiled plan binds for a
route-built filter is at most 100, and the spec's example 500 clamps
to exactly 100. -/
theorem routeLimit_clamped_to_100 :
    (∀ raw : Option Nat, routeEffectiveLimit raw ≤ 100) ∧
    (∀ (uid : Nat) (q : Option String) (tg : Option (List String))
       (dF dT : Option String) (fid : Option Nat) (pg raw : Option Nat),
       planLimit (routeFilters uid q tg dF dT fid pg raw) ≤ 100) ∧
    routeEffectiveLimit (some 500) = 100 := by
  have hcl : ∀ l : Nat, clampLimit l ≤ 100 := by
    intro l
    rw [clampLimit]
    split <;> omega
  refine ⟨fun raw => hcl _, fun uid q tg dF dT fid pg raw => hcl _, by decide⟩

/-- C7.  For both backends the freshly computed Result Set satisfies
`totalPages = ⌈total / limit⌉` (ceiling division) and
`hasMore = (page < totalPages)`; at `total = 45`, `limit = 20` the shaping
of lines 156-165 yields three pages, with more results after page 1 and
none after page 3. -/
theorem searchResult_pagination_formulas (st : Store) (F : SearchFilters)
    (fts : String → DbPost → Bool) (index : List ESPost) (G : ESSearchFilters)
    (em : String → Bool → ESPost → Bool)
    (h₁ : 0 < F.limit.getD 20) (h₂ : 0 < G.limit.getD 20) :
    ((searchFriendPostsCompute st F fts).totalPages
        = (searchFriendPostsCompute st F fts).total ⌈/⌉ (F.limit.getD 20) ∧
     (searchFriendPostsCompute st F fts).hasMore
        = decide ((searchFriendPostsCompute st F fts).page
            < (searchFriendPostsCompute st F fts).totalPages)) ∧
    ((searchPostsWithElasticsearchCompute index G em).totalPages
        = (searchPostsWithElasticsearchCompute index G em).total
            ⌈/⌉ (G.limit.getD 20) ∧
     (searchPostsWithElasticsearchCompute index G em).hasMore
        = decide ((searchPostsWithElasticsearchCompute index G em).page
            < (searchPostsWithElasticsearchCompute index G em).totalPages)) ∧
    (paginate [rowFix] 45 1 20).totalPages = 3 ∧
    (paginate [rowFix] 45 1 20).hasMore = true ∧
    (paginate [rowFix] 45 3 20).hasMore = false := by
  refine ⟨⟨mathCeil_eq_ceilDiv _ _ h₁, rfl⟩,
          ⟨mathCeil_eq_ceilDiv _ _ h₂, rfl⟩, by decide, by decide, by decide⟩

/-- C7 witness: the hypotheses hold for the fixture filters and the ceiling
formula holds for the relational fixture result. -/
theorem searchResult_pagination_witness :
    (0 < (({ userId := 1, query := some "typing" } : SearchFilters).limit.getD 20)) ∧
    (searchFriendPostsCompute storeAB { userId := 1, query := some "typing" }
        ftsTitle).totalPages
      = (searchFriendPostsCompute storeAB { userId := 1, query := some "typing" }
          ftsTitle).total ⌈/⌉ 20 :=
  ⟨by decide,
   (searchResult_pagination_formulas storeAB
      { userId := 1, query := some "typing" } ftsTitle [esDocByBob]
      { userId := 1 } esMatchTitle (by decide) (by decide)).1.1⟩

/-- C8.  The search result the Elasticsearch path returns is the same for
every outcome of the analytics log write, and `logSearch` absorbs a failed
write (it returns normally for every outcome), so a log failure never
reaches the search caller. -/
theorem esSearch_result_independent_of_log :
    ∀ (index : List ESPost) (G : ESSearchFilters)
      (em : String → Bool → ESPost → Bool) (o : Except String Unit),
      esSearchAndLog index G em o
        = (searchPostsWithElasticsearchCompute index G em, Except.ok ()) := by
  intro index G em o
  cases o <;> rfl

/-- C9.  When the requested page window lies beyond the matching rows, the
query returns no rows, so the window-count fallback reports
`total = 0`, `totalPages = 0` and `hasMore = false` — even when matches
exist on earlier pages. -/
theorem emptyPageWindow_reports_zero (st : Store) (F : SearchFilters)
    (fts : String → DbPost → Bool)
    (h : (matchingRows st F fts).length ≤ (F.page.getD 1 - 1) * (F.limit.getD 20)) :
    (searchFriendPostsCompute st F fts).total = 0 ∧
    (searchFriendPostsCompute st F fts).totalPages = 0 ∧
    (searchFriendPostsCompute st F fts).hasMore = false := by
  have hdrop : (sortByCreatedDesc (matchingRows st F fts)).drop
      ((F.page.getD 1 - 1) * (F.limit.getD 20)) = [] :=
    List.drop_eq_nil_of_le (by rw [length_sortByCreatedDesc]; exact h)
  simp [searchFriendPostsCompute, paginate, hdrop, mathCeil]

/-- C9 witness: two matching posts exist, yet page 2 reports zero. -/
theorem emptyPageWindow_witness :
    0 < (matchingRows storeAB { userId := 1, page := some 2 } ftsTitle).length ∧
    (matchingRows storeAB { userId := 1, page := some 2 } ftsTitle).length
      ≤ (({ userId := 1, page := some 2 } : SearchFilters).page.getD 1 - 1)
          * (({ userId := 1, page := some 2 } : SearchFilters).limit.getD 20) ∧
    ((searchFriendPostsCompute storeAB { userId := 1, page := some 2 }
        ftsTitle).total = 0 ∧
     (searchFriendPostsCompute storeAB { userId := 1, page := some 2 }
        ftsTitle).totalPages = 0 ∧
     (searchFriendPostsCompute storeAB { userId := 1, page := some 2 }
        ftsTitle).hasMore = false) :=
  ⟨by decide, by decide,
   emptyPageWindow_reports_zero storeAB { userId := 1, page := some 2 }
     ftsTitle (by decide)⟩

/-- C10.  Every auxiliary read path answers an engine/database error with an
empty result instead of raising, while both primary search paths re-raise
their fixed error messages. -/
theorem auxReads_swallow_backend_errors :
    ∀ e : String,
      getPopularTags (.error e) = .ok [] ∧
      getRelatedQueries (.error e) = .ok [] ∧
      getTrendingSearches (.error e) = .ok [] ∧
      (∀ q : String, getAutocompleteSuggestionsRun q (.error e) = .ok []) ∧
      searchFriendPostsOutcome (.error e) = .error "Failed to search posts" ∧
      searchPostsWithElasticsearchOutcome (.error e) = .error "Search failed" :=
  fun _ => ⟨rfl, rfl, rfl, fun _ => rfl, rfl, rfl⟩

/-- C6 (counterexample).  The relational suggestion route performs no
deduplication: with two friend posts sharing the title `typing`, the
suggestion list for `typing` contains that title twice. -/
theorem relationalSuggestions_return_duplicates :
    (suggestionsRoute storeAB ftsTitle 1 "typing" [] 0).1 = ["typing", "typing"] ∧
    ¬ (suggestionsRoute storeAB ftsTitle 1 "typing" [] 0).1.Nodup := by
  exact ⟨by decide, by decide⟩

/-- C6 (amended).  Both suggestion paths answer an empty list (not an
error) for prefixes shorter than two characters.  The index path
deduplicates with first-seen order (its output is a duplicate-free sublist
of the filtered engine titles) and returns at most `limit` entries when the
engine honours `size: limit`; the relational route returns at most its
hard-coded five entries but may contain duplicates. -/
theorem suggestions_shortCircuit_and_dedup (q : String) (limit : Nat)
    (hits : List String) (hlen : hits.length ≤ limit) :
    (q.length < 2 → getAutocompleteSuggestions q hits = [] ∧
      ∀ (st : Store) (fts : String → DbPost → Bool) (uid : Nat) (c : Cache)
        (now : Nat), (suggestionsRoute st fts uid q c now).1 = []) ∧
    (getAutocompleteSuggestions q hits).Nodup ∧
    (getAutocompleteSuggestions q hits).length ≤ limit ∧
    List.Sublist (getAutocompleteSuggestions q hits)
      (hits.filter (fun t => !(t == "") && hasNonWs t)) ∧
    (∀ (st : Store) (fts : String → DbPost → Bool) (uid : Nat) (c : Cache)
      (now : Nat), (suggestionsRoute st fts uid q c now).1.length ≤ 5) := by
  refine ⟨?_, ?_, ?_, ?_, ?_⟩
  · intro hq
    constructor
    · simp [getAutocompleteSuggestions, hq]
    · intro st fts uid c now
      simp [suggestionsRoute, hq]
  · rw [getAutocompleteSuggestions]
    split
    · exact List.nodup_nil
    · exact dedupFirst_nodup _
  · rw [getAutocompleteSuggestions]
    split
    · simp
    · calc (dedupFirst (hits.filter (fun t => !(t == "") && hasNonWs t))).length
          ≤ (hits.filter (fun t => !(t == "") && hasNonWs t)).length :=
            (dedupFirst_sublist _).length_le
        _ ≤ hits.length := List.length_filter_le _ _
        _ ≤ limit := hlen
  · rw [getAutocompleteSuggestions]
    split
    · exact List.nil_sublist _
    · exact dedupFirst_sublist _
  · intro st fts uid c now
    rw [suggestionsRoute]
    split
    · simp
    · exact List.length_take_le _ _

/-- C6 witness: a three-title engine response for the prefix `typ` obeys
the bound, and the deduplicated output is duplicate-free. -/
theorem suggestions_shortCircuit_witness :
    (["typed", "typed", "types"].length ≤ 5) ∧
    getAutocompleteSuggestions "typ" ["typed", "typed", "types"]
      = ["typed", "types"] ∧
    (getAutocompleteSuggestions "typ" ["typed", "typed", "types"]).Nodup :=
  ⟨by decide, by decide,
   (suggestions_shortCircuit_and_dedup "typ" 5 ["typed", "typed", "types"]
      (by decide)).2.1⟩

/-- C3 (counterexample).  `invalidateCache(1)` matches keys by substring, so
it also deletes the cache entry of requester 12, whose key
`..."userId":12...` contains the searched fragment `"userId":1`: the claim
that every other requester's entries are left unchanged is false. -/
theorem invalidateCache_removes_prefix_requester :
    invalidateCache (some 1) [(relFingerprint { userId := 12 }, resFix, 0)] = [] ∧
    (12 : Nat) ≠ 1 :=
  ⟨by decide, by decide⟩

/-- C3 (amended).  `invalidateCache(u)` (for truthy `u`) removes exactly the
entries whose key contains the substring `"userId":<u>` — this covers every
key fingerprinted from a Filter Model with requester `u` (each such key
carries the marker), but may also remove entries of requesters whose
decimal id extends `u` — and `invalidateCache()` with no requester flushes
every entry. -/
theorem invalidateCache_scope :
    (∀ u : Nat, u ≠ 0 → ∀ (c : Cache) (e : List Char × SearchResult × Nat),
       (e ∈ invalidateCache (some u) c ↔
         e ∈ c ∧ hasSub e.1 (userIdMarker u) = false)) ∧
    (∀ F : SearchFilters, hasSub (relFingerprint F) (userIdMarker F.userId) = true) ∧
    (∀ c : Cache, invalidateCache none c = []) :=
  ⟨fun u hu c e => invalidateCache_mem_iff u hu c e,
   fun F => relFingerprint_marker F,
   fun _ => rfl⟩

/-- C3 witness: the membership characterization applied to requester 1's
own fingerprinted entry. -/
theorem invalidateCache_scope_witness :
    ((1 : Nat) ≠ 0) ∧
    ((relFingerprint { userId := 1 }, resFix, 0)
        ∈ invalidateCache (some 1) [(relFingerprint { userId := 1 }, resFix, 0)] ↔
      (relFingerprint { userId := 1 }, resFix, 0)
          ∈ [(relFingerprint { userId := 1 }, resFix, 0)] ∧
        hasSub (relFingerprint { userId := 1 }) (userIdMarker 1) = false) :=
  ⟨by decide,
   invalidateCache_scope.1 1 (by decide)
     [(relFingerprint { userId := 1 }, resFix, 0)]
     (relFingerprint { userId := 1 }, resFix, 0)⟩

/-- C4.  After a cache-miss search at `t₀`, repeating the same search at any
`t₁ ≤ t₀ + 300` returns the identical cached Result Set (in particular
equal `hasMore` and `totalPages`) no matter how the store has been mutated
in between; once the entry has expired (`t₂ > t₀ + 300`) the search
computes fresh from the current store. -/
theorem search_ttl_cache_isolation (st st' : Store) (F : SearchFilters)
    (fts fts' : String → DbPost → Bool) (c₀ : Cache) (t₀ t₁ : Nat)
    (hmiss : cacheGet c₀ (relFingerprint F) t₀ = none)
    (httl : t₁ ≤ t₀ + 300) :
    ((searchFriendPosts st' F fts' (searchFriendPosts st F fts c₀ t₀).2 t₁).1
       = (searchFriendPosts st F fts c₀ t₀).1) ∧
    ((searchFriendPosts st' F fts' (searchFriendPosts st F fts c₀ t₀).2 t₁).1.hasMore
       = (searchFriendPosts st F fts c₀ t₀).1.hasMore) ∧
    ((searchFriendPosts st' F fts' (searchFriendPosts st F fts c₀ t₀).2 t₁).1.totalPages
       = (searchFriendPosts st F fts c₀ t₀).1.totalPages) ∧
    (∀ t₂, t₀ + 300 < t₂ →
      (searchFriendPosts st' F fts' (searchFriendPosts st F fts c₀ t₀).2 t₂).1
        = searchFriendPostsCompute st' F fts') := by
  have h1 : searchFriendPosts st F fts c₀ t₀
      = (searchFriendPostsCompute st F fts,
         cacheSet c₀ (relFingerprint F) (searchFriendPostsCompute st F fts) t₀) := by
    rw [searchFriendPosts, hmiss]
  have hhit : cacheGet
      (cacheSet c₀ (relFingerprint F) (searchFriendPostsCompute st F fts) t₀)
      (relFingerprint F) t₁ = some (searchFriendPostsCompute st F fts) := by
    rw [cacheGet, cacheSet, List.find?_cons_of_pos _
      (by simp only [beq_self_eq_true, Bool.true_and]
          exact Nat.ble_eq.mpr httl)]
  have hfst : (searchFriendPosts st' F fts'
      (searchFriendPosts st F fts c₀ t₀).2 t₁).1
      = (searchFriendPosts st F fts c₀ t₀).1 := by
    rw [h1, searchFriendPosts, hhit]
  refine ⟨hfst, by rw [hfst], by rw [hfst], ?_⟩
  intro t₂ ht₂
  have hnone : cacheGet
      (cacheSet c₀ (relFingerprint F) (searchFriendPostsCompute st F fts) t₀)
      (relFingerprint F) t₂ = none := by
    rw [cacheGet, cacheSet]
    rw [List.find?_eq_none.mpr ?all]
    case all =>
      intro x hx
      rcases List.mem_cons.mp hx with rfl | hx'
      · simp only [beq_self_eq_true, Bool.true_and, Nat.ble_eq]
        omega
      · have := (List.mem_filter.mp hx').2
        simp only [Bool.not_eq_true', beq_eq_false_iff_ne, ne_eq] at this
        simp [this]
  rw [h1, searchFriendPosts, hnone]

/-! ### Injectivity of the `JSON.stringify` cache key

The fingerprint is shown to determine the filter object: a JSON string
literal can be peeled off a serialization uniquely (`esc_peel`,
`quote_peel`), a decimal numeral can be peeled up to the first non-digit
(`digits_peel`), values and fields follow. -/

theorem esc_peel : ∀ s t u v : List Char,
    esc s ++ '"' :: u = esc t ++ '"' :: v → s = t ∧ u = v := by
  intro s
  induction s with
  | nil =>
    intro t u v h
    cases t with
    | nil => exact ⟨rfl, by simpa [esc] using h⟩
    | cons d ds =>
      rw [esc, esc] at h
      by_cases hd : d = '"' ∨ d = '\\'
      · rw [if_pos hd] at h
        simp only [List.nil_append, List.cons_append, List.cons.injEq] at h
        exact absurd h.1 (by decide)
      · rw [if_neg hd] at h
        simp only [List.nil_append, List.cons_append, List.cons.injEq] at h
        exact absurd h.1.symm (fun hh => hd (Or.inl hh))
  | cons c cs ih =>
    intro t u v h
    cases t with
    | nil =>
      rw [esc, esc] at h
      by_cases hc : c = '"' ∨ c = '\\'
      · rw [if_pos hc] at h
        simp only [List.cons_append, List.nil_append, List.cons.injEq] at h
        exact absurd h.1 (by decide)
      · rw [if_neg hc] at h
        simp only [List.cons_append, List.nil_append, List.cons.injEq] at h
        exact absurd h.1 (fun hh => hc (Or.inl hh))
    | cons d ds =>
      rw [esc, esc] at h
      by_cases hc : c = '"' ∨ c = '\\' <;> by_cases hd : d = '"' ∨ d = '\\'
      · rw [if_pos hc, if_pos hd] at h
        simp only [List.cons_append, List.cons.injEq, true_and] at h
        obtain ⟨hcd, htail⟩ := h
        obtain ⟨h1, h2⟩ := ih ds u v htail
        exact ⟨by rw [hcd, h1], h2⟩
      · rw [if_pos hc, if_neg hd] at h
        simp only [List.cons_append, List.cons.injEq] at h
        exact absurd h.1.symm (fun hh => hd (Or.inr hh))
      · rw [if_neg hc, if_pos hd] at h
        simp only [List.cons_append, List.cons.injEq] at h
        exact absurd h.1 (fun hh => hc (Or.inr hh))
      · rw [if_neg hc, if_neg hd] at h
        simp only [List.cons_append, List.cons.injEq] at h
        obtain ⟨hcd, htail⟩ := h
        obtain ⟨h1, h2⟩ := ih ds u v htail
        exact ⟨by rw [hcd, h1], h2⟩

theorem quote_cons (s r : List Char) :
    quoteChars s ++ r = '"' :: (esc s ++ '"' :: r) := by
  simp [quoteChars]

theorem quote_peel {s t r₁ r₂ : List Char}
    (h : quoteChars s ++ r₁ = quoteChars t ++ r₂) : s = t ∧ r₁ = r₂ := by
  rw [quote_cons, quote_cons] at h
  simp only [List.cons.injEq, true_and] at h
  exact esc_peel s t r₁ r₂ h

theorem digit_digitChar : ∀ m, m < 10 → isDig (Nat.digitChar m) := by decide

theorem digVal_digitChar : ∀ m, m < 10 → digVal (Nat.digitChar m) = m := by decide

theorem natCharsFuel_digits : ∀ fuel n, n < fuel →
    ∀ c ∈ natCharsFuel fuel n, isDig c := by
  intro fuel
  induction fuel with
  | zero => intro n h; exact absurd h (Nat.not_lt_zero n)
  | succ fuel ih =>
    intro n h c hc
    rw [natCharsFuel] at hc
    by_cases h10 : n < 10
    · rw [if_pos h10] at hc
      simp only [List.mem_singleton] at hc
      subst hc
      exact digit_digitChar n h10
    · rw [if_neg h10] at hc
      rcases List.mem_append.mp hc with h1 | h2
      · exact ih (n / 10) (by omega) c h1
      · simp only [List.mem_singleton] at h2
        subst h2
        exact digit_digitChar _ (Nat.mod_lt n (by omega))

theorem natChars_digits (n : Nat) : ∀ c ∈ natChars n, isDig c :=
  natCharsFuel_digits (n + 1) n (by omega)

theorem natCharsFuel_ne_nil : ∀ fuel n, n < fuel → natCharsFuel fuel n ≠ [] := by
  intro fuel n h
  cases fuel with
  | zero => exact absurd h (Nat.not_lt_zero n)
  | succ fuel =>
    rw [natCharsFuel]
    by_cases h10 : n < 10
    · rw [if_pos h10]; simp
    · rw [if_neg h10]; simp

theorem natVal_append_digit (xs : List Char) (d : Char) :
    natVal (xs ++ [d]) = 10 * natVal xs + digVal d := by
  simp [natVal, List.foldl_append]

theorem natCharsFuel_val : ∀ fuel n, n < fuel →
    natVal (natCharsFuel fuel n) = n := by
  intro fuel
  induction fuel with
  | zero => intro n h; exact absurd h (Nat.not_lt_zero n)
  | succ fuel ih =>
    intro n h
    rw [natCharsFuel]
    by_cases h10 : n < 10
    · rw [if_pos h10]
      have : natVal [Nat.digitChar n] = digVal (Nat.digitChar n) := by
        simp [natVal]
      rw [this, digVal_digitChar n h10]
    · rw [if_neg h10, natVal_append_digit,
        ih (n / 10) (by omega),
        digVal_digitChar _ (Nat.mod_lt n (by omega))]
      omega

theorem natChars_inj {m n : Nat} (h : natChars m = natChars n) : m = n := by
  have hm := natCharsFuel_val (m + 1) m (by omega)
  have hn := natCharsFuel_val (n + 1) n (by omega)
  rw [natChars, natChars] at h
  rw [← hm, ← hn, h]

theorem natChars_head (n : Nat) :
    ∃ c cs, natChars n = c :: cs ∧ isDig c := by
  cases hnc : natChars n with
  | nil => exact absurd hnc (natCharsFuel_ne_nil (n + 1) n (by omega))
  | cons c cs =>
    refine ⟨c, cs, rfl, ?_⟩
    have := natChars_digits n c (by rw [hnc]; exact List.mem_cons_self _ _)
    exact this

theorem digits_peel : ∀ s : List Char, (∀ c ∈ s, isDig c) →
    ∀ t : List Char, (∀ c ∈ t, isDig c) →
    ∀ (x y : Char) (u v : List Char), ¬ isDig x → ¬ isDig y →
    s ++ x :: u = t ++ y :: v → s = t ∧ x :: u = y :: v := by
  intro s
  induction s with
  | nil =>
    intro hs t ht x y u v hx hy h
    cases t with
    | nil => exact ⟨rfl, by simpa using h⟩
    | cons d ds =>
      simp only [List.nil_append, List.cons_append, List.cons.injEq] at h
      exact absurd (h.1 ▸ ht d (List.mem_cons_self d ds)) hx
  | cons c cs ih =>
    intro hs t ht x y u v hx hy h
    cases t with
    | nil =>
      simp only [List.cons_append, List.nil_append, List.cons.injEq] at h
      exact absurd (h.1 ▸ hs c (List.mem_cons_self c cs)) hy
    | cons d ds =>
      simp only [List.cons_append, List.cons.injEq] at h
      obtain ⟨hcd, htail⟩ := h
      obtain ⟨h1, h2⟩ := ih (fun a ha => hs a (List.mem_cons_of_mem _ ha)) ds
        (fun a ha => ht a (List.mem_cons_of_mem _ ha)) x y u v hx hy htail
      exact ⟨by rw [hcd, h1], h2⟩

theorem natChars_peel {m n : Nat} {x y : Char} {u v : List Char}
    (hx : ¬ isDig x) (hy : ¬ isDig y)
    (h : natChars m ++ x :: u = natChars n ++ y :: v) :
    m = n ∧ x :: u = y :: v := by
  obtain ⟨h1, h2⟩ := digits_peel (natChars m) (natChars_digits m) (natChars n)
    (natChars_digits n) x y u v hx hy h
  exact ⟨natChars_inj h1, h2⟩

theorem str_data_inj {s t : String} (h : s.data = t.data) : s = t := by
  cases s; cases t; exact congrArg String.mk h

theorem jarr_cons (l : List String) (r : List Char) :
    jvalChars (.jarr l) ++ r
      = '[' :: (sepComma (l.map (fun s => quoteChars s.data)) ++ ']' :: r) := by
  simp [jvalChars]

theorem jstr_cons (t : String) (r : List Char) :
    jvalChars (.jstr t) ++ r = '"' :: (esc t.data ++ '"' :: r) := by
  simp [jvalChars, quoteChars]

theorem jbool_true_cons (r : List Char) :
    jvalChars (.jbool true) ++ r = 't' :: ("rue".data ++ r) := rfl

theorem jbool_false_cons (r : List Char) :
    jvalChars (.jbool false) ++ r = 'f' :: ("alse".data ++ r) := rfl

theorem strList_peel : ∀ (l₁ l₂ : List String) (u v : List Char),
    sepComma (l₁.map (fun s => quoteChars s.data)) ++ ']' :: u
      = sepComma (l₂.map (fun s => quoteChars s.data)) ++ ']' :: v →
    l₁ = l₂ ∧ u = v := by
  intro l₁
  induction l₁ with
  | nil =>
    intro l₂ u v h
    cases l₂ with
    | nil => exact ⟨rfl, by simpa [sepComma] using h⟩
    | cons t ts =>
      rw [List.map_cons] at h
      obtain ⟨r, hr⟩ := sepComma_cons (quoteChars t.data)
        (ts.map (fun s => quoteChars s.data))
      rw [hr, List.append_assoc, quote_cons] at h
      simp only [List.map_nil, sepComma, List.nil_append, List.cons.injEq] at h
      exact absurd h.1 (by decide)
  | cons s ss ih =>
    intro l₂ u v h
    cases l₂ with
    | nil =>
      rw [List.map_cons] at h
      obtain ⟨r, hr⟩ := sepComma_cons (quoteChars s.data)
        (ss.map (fun s => quoteChars s.data))
      rw [hr, List.append_assoc, quote_cons] at h
      simp only [List.map_nil, sepComma, List.nil_append, List.cons.injEq] at h
      exact absurd h.1 (by decide)
    | cons t ts =>
      cases ss with
      | nil =>
        cases ts with
        | nil =>
          simp only [List.map_cons, List.map_nil, sepComma] at h
          obtain ⟨h1, h2⟩ := quote_peel h
          refine ⟨by rw [str_data_inj h1], ?_⟩
          simpa using h2
        | cons t' ts' =>
          simp only [List.map_cons, List.map_nil, sepComma] at h
          rw [List.append_assoc] at h
          obtain ⟨-, h2⟩ := quote_peel h
          simp only [List.cons_append, List.cons.injEq] at h2
          exact absurd h2.1 (by decide)
      | cons s' ss' =>
        cases ts with
        | nil =>
          simp only [List.map_cons, List.map_nil, sepComma] at h
          rw [List.append_assoc] at h
          obtain ⟨-, h2⟩ := quote_peel h
          simp only [List.cons_append, List.cons.injEq] at h2
          exact absurd h2.1 (by decide)
        | cons t' ts' =>
          simp only [List.map_cons, sepComma] at h
          rw [List.append_assoc, List.append_assoc] at h
          obtain ⟨h1, h2⟩ := quote_peel h
          simp only [List.cons_append, List.cons.injEq, true_and] at h2
          obtain ⟨h3, h4⟩ := ih (t' :: ts') u v (by
            simpa only [List.map_cons] using h2)
          exact ⟨by rw [str_data_inj h1, h3], h4⟩

theorem jval_peel : ∀ (a b : JVal) (x y : Char) (u v : List Char),
    (x = ',' ∨ x = '\x7d') → (y = ',' ∨ y = '\x7d') →
    jvalChars a ++ x :: u = jvalChars b ++ y :: v →
    a = b ∧ x :: u = y :: v := by
  intro a b x y u v hx hy h
  have hx' : ¬ isDig x := by rcases hx with rfl | rfl <;> decide
  have hy' : ¬ isDig y := by rcases hy with rfl | rfl <;> decide
  cases a with
  | jnum m =>
    obtain ⟨c, cs, hna, hc⟩ := natChars_head m
    cases b with
    | jnum n =>
      simp only [jvalChars] at h
      obtain ⟨h1, h2⟩ := natChars_peel hx' hy' h
      exact ⟨by rw [h1], h2⟩
    | jstr t =>
      rw [jstr_cons] at h
      simp only [jvalChars] at h
      rw [hna] at h
      simp only [List.cons_append, List.cons.injEq] at h
      have : isDig '"' := by rw [← h.1]; exact hc
      exact absurd this (by decide)
    | jarr l =>
      rw [jarr_cons] at h
      simp only [jvalChars] at h
      rw [hna] at h
      simp only [List.cons_append, List.cons.injEq] at h
      have : isDig '[' := by rw [← h.1]; exact hc
      exact absurd this (by decide)
    | jbool bb =>
      cases bb with
      | true =>
        rw [jbool_true_cons] at h
        simp only [jvalChars] at h
        rw [hna] at h
        simp only [List.cons_append, List.cons.injEq] at h
        have : isDig 't' := by rw [← h.1]; exact hc
        exact absurd this (by decide)
      | false =>
        rw [jbool_false_cons] at h
        simp only [jvalChars] at h
        rw [hna] at h
        simp only [List.cons_append, List.cons.injEq] at h
        have : isDig 'f' := by rw [← h.1]; exact hc
        exact absurd this (by decide)
  | jstr s =>
    cases b with
    | jnum n =>
      obtain ⟨c, cs, hnb, hc⟩ := natChars_head n
      rw [jstr_cons] at h
      simp only [jvalChars] at h
      rw [hnb] at h
      simp only [List.cons_append, List.cons.injEq] at h
      have : isDig '"' := by rw [h.1]; exact hc
      exact absurd this (by decide)
    | jstr t =>
      simp only [jvalChars] at h
      obtain ⟨h1, h2⟩ := quote_peel h
      exact ⟨by rw [str_data_inj h1], h2⟩
    | jarr l =>
      rw [jarr_cons, jstr_cons] at h
      simp only [List.cons.injEq] at h
      exact absurd h.1 (by decide)
    | jbool bb =>
      cases bb with
      | true =>
        rw [jbool_true_cons, jstr_cons] at h
        simp only [List.cons.injEq] at h
        exact absurd h.1 (by decide)
      | false =>
        rw [jbool_false_cons, jstr_cons] at h
        simp only [List.cons.injEq] at h
        exact absurd h.1 (by decide)
  | jarr l₁ =>
    cases b with
    | jnum n =>
      obtain ⟨c, cs, hnb, hc⟩ := natChars_head n
      rw [jarr_cons] at h
      simp only [jvalChars] at h
      rw [hnb] at h
      simp only [List.cons_append, List.cons.injEq] at h
      have : isDig '[' := by rw [h.1]; exact hc
      exact absurd this (by decide)
    | jstr t =>
      rw [jarr_cons, jstr_cons] at h
      simp only [List.cons.injEq] at h
      exact absurd h.1 (by decide)
    | jarr l₂ =>
      rw [jarr_cons, jarr_cons] at h
      simp only [List.cons.injEq, true_and] at h
      obtain ⟨h1, h2⟩ := strList_peel l₁ l₂ (x :: u) (y :: v) h
      exact ⟨by rw [h1], h2⟩
    | jbool bb =>
      cases bb with
      | true =>
        rw [jarr_cons, jbool_true_cons] at h
        simp only [List.cons.injEq] at h
        exact absurd h.1 (by decide)
      | false =>
        rw [jarr_cons, jbool_false_cons] at h
        simp only [List.cons.injEq] at h
        exact absurd h.1 (by decide)
  | jbool bb₁ =>
    cases b with
    | jnum n =>
      obtain ⟨c, cs, hnb, hc⟩ := natChars_head n
      cases bb₁ with
      | true =>
        rw [jbool_true_cons] at h
        simp only [jvalChars] at h
        rw [hnb] at h
        simp only [List.cons_append, List.cons.injEq] at h
        have : isDig 't' := by rw [h.1]; exact hc
        exact absurd this (by decide)
      | false =>
        rw [jbool_false_cons] at h
        simp only [jvalChars] at h
        rw [hnb] at h
        simp only [List.cons_append, List.cons.injEq] at h
        have : isDig 'f' := by rw [h.1]; exact hc
        exact absurd this (by decide)
    | jstr t =>
      cases bb₁ with
      | true =>
        rw [jbool_true_cons, jstr_cons] at h
        simp only [List.cons.injEq] at h
        exact absurd h.1 (by decide)
      | false =>
        rw [jbool_false_cons, jstr_cons] at h
        simp only [List.cons.injEq] at h
        exact absurd h.1 (by decide)
    | jarr l =>
      cases bb₁ with
      | true =>
        rw [jbool_true_cons, jarr_cons] at h
        simp only [List.cons.injEq] at h
        exact absurd h.1 (by decide)
      | false =>
        rw [jbool_false_cons, jarr_cons] at h
        simp only [List.cons.injEq] at h
        exact absurd h.1 (by decide)
    | jbool bb₂ =>
      cases bb₁ <;> cases bb₂
      · rw [jbool_false_cons, jbool_false_cons] at h
        simp only [List.cons.injEq, true_and] at h
        simp only [List.cons_append, List.cons.injEq, true_and] at h
        exact ⟨rfl, h⟩
      · rw [jbool_false_cons, jbool_true_cons] at h
        simp only [List.cons.injEq] at h
        exact absurd h.1 (by decide)
      · rw [jbool_true_cons, jbool_false_cons] at h
        simp only [List.cons.injEq] at h
        exact absurd h.1 (by decide)
      · rw [jbool_true_cons, jbool_true_cons] at h
        simp only [List.cons.injEq, true_and] at h
        simp only [List.cons_append, List.cons.injEq, true_and] at h
        exact ⟨rfl, h⟩

theorem fieldChars_cons (p : String × JVal) (r : List Char) :
    fieldChars p ++ r
      = '"' :: (esc p.1.data ++ '"' :: (':' :: (jvalChars p.2 ++ r))) := by
  simp [fieldChars, quoteChars]

theorem field_peel (p q : String × JVal) {x y : Char} {u v : List Char}
    (hx : x = ',' ∨ x = '\x7d') (hy : y = ',' ∨ y = '\x7d')
    (h : fieldChars p ++ x :: u = fieldChars q ++ y :: v) :
    p = q ∧ x :: u = y :: v := by
  obtain ⟨k₁, a⟩ := p
  obtain ⟨k₂, b⟩ := q
  simp only [fieldChars] at h
  simp only [List.append_assoc, List.cons_append] at h
  obtain ⟨h1, h2⟩ := quote_peel h
  simp only [List.cons.injEq, true_and] at h2
  obtain ⟨h3, h4⟩ := jval_peel a b x y u v hx hy h2
  exact ⟨by rw [str_data_inj h1, h3], h4⟩

theorem fieldList_peel : ∀ (fs₁ fs₂ : List (String × JVal)) (u v : List Char),
    sepComma (fs₁.map fieldChars) ++ '\x7d' :: u
      = sepComma (fs₂.map fieldChars) ++ '\x7d' :: v →
    fs₁ = fs₂ ∧ u = v := by
  intro fs₁
  induction fs₁ with
  | nil =>
    intro fs₂ u v h
    cases fs₂ with
    | nil => exact ⟨rfl, by simpa [sepComma] using h⟩
    | cons q qs =>
      rw [List.map_cons] at h
      obtain ⟨r, hr⟩ := sepComma_cons (fieldChars q) (qs.map fieldChars)
      rw [hr, List.append_assoc, fieldChars_cons] at h
      simp only [List.map_nil, sepComma, List.nil_append, List.cons.injEq] at h
      exact absurd h.1 (by decide)
  | cons p ps ih =>
    intro fs₂ u v h
    cases fs₂ with
    | nil =>
      rw [List.map_cons] at h
      obtain ⟨r, hr⟩ := sepComma_cons (fieldChars p) (ps.map fieldChars)
      rw [hr, List.append_assoc, fieldChars_cons] at h
      simp only [List.map_nil, sepComma, List.nil_append, List.cons.injEq] at h
      exact absurd h.1 (by decide)
    | cons q qs =>
      cases ps with
      | nil =>
        cases qs with
        | nil =>
          simp only [List.map_cons, List.map_nil, sepComma] at h
          obtain ⟨h1, h2⟩ := field_peel p q (Or.inr rfl) (Or.inr rfl) h
          refine ⟨by rw [h1], by simpa using h2⟩
        | cons q' qs' =>
          simp only [List.map_cons, List.map_nil, sepComma] at h
          rw [List.append_assoc] at h
          obtain ⟨-, h2⟩ := field_peel p q (Or.inr rfl) (Or.inl rfl) h
          simp only [List.cons_append, List.cons.injEq] at h2
          exact absurd h2.1 (by decide)
      | cons p' ps' =>
        cases qs with
        | nil =>
          simp only [List.map_cons, List.map_nil, sepComma] at h
          rw [List.append_assoc] at h
          obtain ⟨-, h2⟩ := field_peel p q (Or.inl rfl) (Or.inr rfl) h
          simp only [List.cons_append, List.cons.injEq] at h2
          exact absurd h2.1 (by decide)
        | cons q' qs' =>
          simp only [List.map_cons, sepComma] at h
          rw [List.append_assoc, List.append_assoc] at h
          obtain ⟨h1, h2⟩ := field_peel p q (Or.inl rfl) (Or.inl rfl) h
          simp only [List.cons_append, List.cons.injEq, true_and] at h2
          obtain ⟨h3, h4⟩ := ih (q' :: qs') u v (by
            simpa only [List.map_cons] using h2)
          exact ⟨by rw [h1, h3], h4⟩

/-- `JSON.stringify` is injective on insertion-ordered field lists. -/
theorem jObj_inj {fs₁ fs₂ : List (String × JVal)} (h : jObj fs₁ = jObj fs₂) :
    fs₁ = fs₂ := by
  rw [jObj, jObj] at h
  simp only [List.cons_append, List.cons.injEq, true_and] at h
  exact (fieldList_peel fs₁ fs₂ [] [] h).1

theorem optField_key {α : Type} {k : String} {g : α → JVal} {o : Option α}
    {p : String × JVal} (hp : p ∈ optField k g o) : p.1 = k := by
  cases o with
  | none => simp [optField] at hp
  | some v =>
    simp only [optField, List.mem_singleton] at hp
    rw [hp]

theorem optField_peel {α : Type} (k : String) (g : α → JVal)
    (hg : ∀ p q : α, g p = g q → p = q) :
    ∀ (o₁ o₂ : Option α) (r₁ r₂ : List (String × JVal)),
    (∀ p ∈ r₁, p.1 ≠ k) → (∀ p ∈ r₂, p.1 ≠ k) →
    optField k g o₁ ++ r₁ = optField k g o₂ ++ r₂ → o₁ = o₂ ∧ r₁ = r₂ := by
  intro o₁ o₂ r₁ r₂ h₁ h₂ h
  cases o₁ with
  | none =>
    cases o₂ with
    | none => exact ⟨rfl, by simpa [optField] using h⟩
    | some b =>
      simp only [optField, List.nil_append, List.singleton_append] at h
      have hm : ((k, g b) : String × JVal) ∈ r₁ := by
        rw [h]; exact List.mem_cons_self _ _
      exact absurd rfl (h₁ _ hm)
  | some a =>
    cases o₂ with
    | none =>
      simp only [optField, List.singleton_append, List.nil_append] at h
      have hm : ((k, g a) : String × JVal) ∈ r₂ := by
        rw [← h]; exact List.mem_cons_self _ _
      exact absurd rfl (h₂ _ hm)
    | some b =>
      simp only [optField, List.singleton_append, List.cons.injEq,
        Prod.mk.injEq, true_and] at h
      exact ⟨by rw [hg a b h.1], h.2⟩

/-- The field list of an `ESSearchFilters` object determines the filter. -/
theorem esFields_inj {F G : ESSearchFilters} (h : esFields F = esFields G) :
    F = G := by
  rw [esFields, esFields] at h
  simp only [List.cons.injEq, Prod.mk.injEq, JVal.jnum.injEq, true_and,
    List.append_assoc] at h
  obtain ⟨huid, h⟩ := h
  have hjstr : ∀ p q : String, JVal.jstr p = JVal.jstr q → p = q :=
    fun p q hh => by simpa using hh
  have hjarr : ∀ p q : List String, JVal.jarr p = JVal.jarr q → p = q :=
    fun p q hh => by simpa using hh
  have hjnum : ∀ p q : Nat, JVal.jnum p = JVal.jnum q → p = q :=
    fun p q hh => by simpa using hh
  have hjbool : ∀ p q : Bool, JVal.jbool p = JVal.jbool q → p = q :=
    fun p q hh => by simpa using hh
  have hsort : ∀ p q : SortBy,
      JVal.jstr (sortByStr p) = JVal.jstr (sortByStr q) → p = q := by
    intro p q hh
    cases p <;> cases q <;> simp_all [sortByStr]
  have k2 : ∀ (X : ESSearchFilters) p, p ∈
      (optField "tags" JVal.jarr X.tags ++ (optField "dateFrom" JVal.jstr X.dateFrom ++
       (optField "dateTo" JVal.jstr X.dateTo ++ (optField "friendId" JVal.jnum X.friendId ++
        (optField "page" JVal.jnum X.page ++ (optField "limit" JVal.jnum X.limit ++
         (optField "sortBy" (fun s => JVal.jstr (sortByStr s)) X.sortBy ++
          optField "fuzzy" JVal.jbool X.fuzzy))))))) → p.1 ≠ "query" := by
    intro X p hp
    simp only [List.mem_append] at hp
    rcases hp with hp|hp|hp|hp|hp|hp|hp|hp <;> (rw [optField_key hp]; decide)
  obtain ⟨hquery, h⟩ := optField_peel "query" JVal.jstr hjstr
    F.query G.query _ _ (k2 F) (k2 G) h
  have k3 : ∀ (X : ESSearchFilters) p, p ∈
      (optField "dateFrom" JVal.jstr X.dateFrom ++
       (optField "dateTo" JVal.jstr X.dateTo ++ (optField "friendId" JVal.jnum X.friendId ++
        (optField "page" JVal.jnum X.page ++ (optField "limit" JVal.jnum X.limit ++
         (optField "sortBy" (fun s => JVal.jstr (sortByStr s)) X.sortBy ++
          optField "fuzzy" JVal.jbool X.fuzzy)))))) → p.1 ≠ "tags" := by
    intro X p hp
    simp only [List.mem_append] at hp
    rcases hp with hp|hp|hp|hp|hp|hp|hp <;> (rw [optField_key hp]; decide)
  obtain ⟨htags, h⟩ := optField_peel "tags" JVal.jarr hjarr
    F.tags G.tags _ _ (k3 F) (k3 G) h
  have k4 : ∀ (X : ESSearchFilters) p, p ∈
      (optField "dateTo" JVal.jstr X.dateTo ++ (optField "friendId" JVal.jnum X.friendId ++
       (optField "page" JVal.jnum X.page ++ (optField "limit" JVal.jnum X.limit ++
        (optField "sortBy" (fun s => JVal.jstr (sortByStr s)) X.sortBy ++
         optField "fuzzy" JVal.jbool X.fuzzy))))) → p.1 ≠ "dateFrom" := by
    intro X p hp
    simp only [List.mem_append] at hp
    rcases hp with hp|hp|hp|hp|hp|hp <;> (rw [optField_key hp]; decide)
  obtain ⟨hdateFrom, h⟩ := optField_peel "dateFrom" JVal.jstr hjstr
    F.dateFrom G.dateFrom _ _ (k4 F) (k4 G) h
  have k5 : ∀ (X : ESSearchFilters) p, p ∈
      (optField "friendId" JVal.jnum X.friendId ++
       (optField "page" JVal.jnum X.page ++ (optField "limit" JVal.jnum X.limit ++
        (optField "sortBy" (fun s => JVal.jstr (sortByStr s)) X.sortBy ++
         optField "fuzzy" JVal.jbool X.fuzzy)))) → p.1 ≠ "dateTo" := by
    intro X p hp
    simp only [List.mem_append] at hp
    rcases hp with hp|hp|hp|hp|hp <;> (rw [optField_key hp]; decide)
  obtain ⟨hdateTo, h⟩ := optField_peel "dateTo" JVal.jstr hjstr
    F.dateTo G.dateTo _ _ (k5 F) (k5 G) h
  have k6 : ∀ (X : ESSearchFilters) p, p ∈
      (optField "page" JVal.jnum X.page ++ (optField "limit" JVal.jnum X.limit ++
       (optField "sortBy" (fun s => JVal.jstr (sortByStr s)) X.sortBy ++
        optField "fuzzy" JVal.jbool X.fuzzy))) → p.1 ≠ "friendId" := by
    intro X p hp
    simp only [List.mem_append] at hp
    rcases hp with hp|hp|hp|hp <;> (rw [optField_key hp]; decide)
  obtain ⟨hfriendId, h⟩ := optField_peel "friendId" JVal.jnum hjnum
    F.friendId G.friendId _ _ (k6 F) (k6 G) h
  have k7 : ∀ (X : ESSearchFilters) p, p ∈
      (optField "limit" JVal.jnum X.limit ++
       (optField "sortBy" (fun s => JVal.jstr (sortByStr s)) X.sortBy ++
        optField "fuzzy" JVal.jbool X.fuzzy)) → p.1 ≠ "page" := by
    intro X p hp
    simp only [List.mem_append] at hp
    rcases hp with hp|hp|hp <;> (rw [optField_key hp]; decide)
  obtain ⟨hpage, h⟩ := optField_peel "page" JVal.jnum hjnum
    F.page G.page _ _ (k7 F) (k7 G) h
  have k8 : ∀ (X : ESSearchFilters) p, p ∈
      (optField "sortBy" (fun s => JVal.jstr (sortByStr s)) X.sortBy ++
       optField "fuzzy" JVal.jbool X.fuzzy) → p.1 ≠ "limit" := by
    intro X p hp
    simp only [List.mem_append] at hp
    rcases hp with hp|hp <;> (rw [optField_key hp]; decide)
  obtain ⟨hlimit, h⟩ := optField_peel "limit" JVal.jnum hjnum
    F.limit G.limit _ _ (k8 F) (k8 G) h
  have k9 : ∀ (X : ESSearchFilters) p, p ∈
      optField "fuzzy" JVal.jbool X.fuzzy → p.1 ≠ "sortBy" := by
    intro X p hp
    rw [optField_key hp]; decide
  obtain ⟨hsortBy, h⟩ := optField_peel "sortBy"
    (fun s => JVal.jstr (sortByStr s)) hsort
    F.sortBy G.sortBy _ _ (k9 F) (k9 G) h
  have hfuzzy := (optField_peel "fuzzy" JVal.jbool hjbool
    F.fuzzy G.fuzzy [] [] (by simp) (by simp) (by simpa using h)).1
  cases F; cases G
  simp only [ESSearchFilters.mk.injEq]
  exact ⟨huid, hquery, htags, hdateFrom, hdateTo, hfriendId, hpage, hlimit,
    hsortBy, hfuzzy⟩

/-- The field list of a relational `SearchFilters` object determines the
filter. -/
theorem relFields_inj {F G : SearchFilters} (h : relFields F = relFields G) :
    F = G := by
  rw [relFields, relFields] at h
  simp only [List.cons.injEq, Prod.mk.injEq, JVal.jnum.injEq, true_and,
    List.append_assoc] at h
  obtain ⟨huid, h⟩ := h
  have hjstr : ∀ p q : String, JVal.jstr p = JVal.jstr q → p = q :=
    fun p q hh => by simpa using hh
  have hjarr : ∀ p q : List String, JVal.jarr p = JVal.jarr q → p = q :=
    fun p q hh => by simpa using hh
  have hjnum : ∀ p q : Nat, JVal.jnum p = JVal.jnum q → p = q :=
    fun p q hh => by simpa using hh
  have k2 : ∀ (X : SearchFilters) p, p ∈
      (optField "tags" JVal.jarr X.tags ++ (optField "dateFrom" JVal.jstr X.dateFrom ++
       (optField "dateTo" JVal.jstr X.dateTo ++ (optField "friendId" JVal.jnum X.friendId ++
        (optField "page" JVal.jnum X.page ++ optField "limit" JVal.jnum X.limit))))) →
      p.1 ≠ "query" := by
    intro X p hp
    simp only [List.mem_append] at hp
    rcases hp with hp|hp|hp|hp|hp|hp <;> (rw [optField_key hp]; decide)
  obtain ⟨hquery, h⟩ := optField_peel "query" JVal.jstr hjstr
    F.query G.query _ _ (k2 F) (k2 G) h
  have k3 : ∀ (X : SearchFilters) p, p ∈
      (optField "dateFrom" JVal.jstr X.dateFrom ++
       (optField "dateTo" JVal.jstr X.dateTo ++ (optField "friendId" JVal.jnum X.friendId ++
        (optField "page" JVal.jnum X.page ++ optField "limit" JVal.jnum X.limit)))) →
      p.1 ≠ "tags" := by
    intro X p hp
    simp only [List.mem_append] at hp
    rcases hp with hp|hp|hp|hp|hp <;> (rw [optField_key hp]; decide)
  obtain ⟨htags, h⟩ := optField_peel "tags" JVal.jarr hjarr
    F.tags G.tags _ _ (k3 F) (k3 G) h
  have k4 : ∀ (X : SearchFilters) p, p ∈
      (optField "dateTo" JVal.jstr X.dateTo ++ (optField "friendId" JVal.jnum X.friendId ++
       (optField "page" JVal.jnum X.page ++ optField "limit" JVal.jnum X.limit))) →
      p.1 ≠ "dateFrom" := by
    intro X p hp
    simp only [List.mem_append] at hp
    rcases hp with hp|hp|hp|hp <;> (rw [optField_key hp]; decide)
  obtain ⟨hdateFrom, h⟩ := optField_peel "dateFrom" JVal.jstr hjstr
    F.dateFrom G.dateFrom _ _ (k4 F) (k4 G) h
  have k5 : ∀ (X : SearchFilters) p, p ∈
      (optField "friendId" JVal.jnum X.friendId ++
       (optField "page" JVal.jnum X.page ++ optField "limit" JVal.jnum X.limit)) →
      p.1 ≠ "dateTo" := by
    intro X p hp
    simp only [List.mem_append] at hp
    rcases hp with hp|hp|hp <;> (rw [optField_key hp]; decide)
  obtain ⟨hdateTo, h⟩ := optField_peel "dateTo" JVal.jstr hjstr
    F.dateTo G.dateTo _ _ (k5 F) (k5 G) h
  have k6 : ∀ (X : SearchFilters) p, p ∈
      (optField "page" JVal.jnum X.page ++ optField "limit" JVal.jnum X.limit) →
      p.1 ≠ "friendId" := by
    intro X p hp
    simp only [List.mem_append] at hp
    rcases hp with hp|hp <;> (rw [optField_key hp]; decide)
  obtain ⟨hfriendId, h⟩ := optField_peel "friendId" JVal.jnum hjnum
    F.friendId G.friendId _ _ (k6 F) (k6 G) h
  have k7 : ∀ (X : SearchFilters) p, p ∈
      optField "limit" JVal.jnum X.limit → p.1 ≠ "page" := by
    intro X p hp
    rw [optField_key hp]; decide
  obtain ⟨hpage, h⟩ := optField_peel "page" JVal.jnum hjnum
    F.page G.page _ _ (k7 F) (k7 G) h
  have hlimit := (optField_peel "limit" JVal.jnum hjnum
    F.limit G.limit [] [] (by simp) (by simp) (by simpa using h)).1
  cases F; cases G
  simp only [SearchFilters.mk.injEq]
  exact ⟨huid, hquery, htags, hdateFrom, hdateTo, hfriendId, hpage, hlimit⟩

/-- C2 (counterexample).  The cache key is `JSON.stringify` of the filter
object, which serializes fields in insertion order: an object holding the
same fields as `esFields` of a Filter Model but inserted in the other order
(a permutation) produces a different key, so the fingerprint is not a
function of the fields alone "regardless of field order". -/
theorem fingerprint_depends_on_field_order :
    List.Perm [("page", JVal.jnum 2), ("userId", JVal.jnum 1)]
      (esFields { userId := 1, page := some 2 }) ∧
    jObj [("page", JVal.jnum 2), ("userId", JVal.jnum 1)]
      ≠ esFingerprint { userId := 1, page := some 2 } :=
  ⟨by decide, by decide⟩

/-- C2 (amended).  For the canonical insertion order used at the filter
construction sites, the fingerprint is pure (equal filters give equal keys)
and injective on both filter types (any change to any field — `fuzzy`
included, witnessed concretely — changes the key); there is no `backend`
key field, the two backends instead using distinct cache instances. -/
theorem fingerprint_pure_and_injective :
    (∀ F G : ESSearchFilters, F = G → esFingerprint F = esFingerprint G) ∧
    (∀ F G : ESSearchFilters, esFingerprint F = esFingerprint G → F = G) ∧
    (∀ F G : SearchFilters, relFingerprint F = relFingerprint G → F = G) ∧
    esFingerprint { userId := 1, fuzzy := some true }
      ≠ esFingerprint { userId := 1, fuzzy := some false } :=
  ⟨fun _ _ h => by rw [h],
   fun _ _ h => esFields_inj (jObj_inj h),
   fun _ _ h => relFields_inj (jObj_inj h),
   by decide⟩

/-- C2 witness: injectivity applied at two concretely evaluated equal
fingerprints. -/
theorem fingerprint_pure_and_injective_witness :
    esFingerprint { userId := 3, page := some 1 }
      = esFingerprint { userId := 3, page := some 1 } ∧
    ({ userId := 3, page := some 1 } : ESSearchFilters)
      = { userId := 3, page := some 1 } :=
  ⟨by decide,
   fingerprint_pure_and_injective.2.1 { userId := 3, page := some 1 }
     { userId := 3, page := some 1 } (by decide)⟩

/-- C4 witness: a miss at time 0 on the empty cache, a repeat at time 100
against a fully mutated (emptied) store returning the same result. -/
theorem search_ttl_cache_isolation_witness :
    (cacheGet [] (relFingerprint { userId := 1, query := some "typing" }) 0
       = none) ∧
    ((100 : Nat) ≤ 0 + 300) ∧
    ((searchFriendPosts emptyGraphStore { userId := 1, query := some "typing" }
        ftsTitle
        (searchFriendPosts storeAB { userId := 1, query := some "typing" }
          ftsTitle [] 0).2 100).1
      = (searchFriendPosts storeAB { userId := 1, query := some "typing" }
          ftsTitle [] 0).1) :=
  ⟨rfl, by decide,
   (search_ttl_cache_isolation storeAB emptyGraphStore
      { userId := 1, query := some "typing" } ftsTitle ftsTitle [] 0 100
      rfl (by decide)).1⟩

end SearchSvc
